import Mathlib

/-!
# Verification of the Container Analysis ETL (src/main.py)

Shallow embedding of the pandas/streamlit ETL script `src/main.py`.
Python strings are modelled as lists of Unicode codepoints (`Str`),
missing values (NaN/NaT) as `none` of an `Option`, numeric cell values as
`Option ℚ`.  Each pandas operation used by the script is modelled by an
executable Lean function on these types; the theorems at the end of the
file settle the specification claims against those definitions.
-/

namespace ContainerTool

/-- Python strings as lists of Unicode codepoints. -/
abbrev Str := List Nat

/-- Convert a Lean string literal to its codepoint list. -/
def strLit (s : String) : Str := s.toList.map Char.toNat

/-- Python `str.isspace`-style whitespace test for the codepoints stripped
by `str.strip()` (space, tab, LF, VT, FF, CR). -/
def isWsp (n : Nat) : Bool := decide (n = 32 ∨ (9 ≤ n ∧ n ≤ 13))

/-- Python `str.strip()`: remove leading and trailing whitespace. -/
def pyStrip (s : Str) : Str := ((s.dropWhile isWsp).reverse.dropWhile isWsp).reverse

/-- ASCII uppercasing of one codepoint (model of `str.upper` on the
ASCII-range data this pipeline handles). -/
def upChar (n : Nat) : Nat := if 97 ≤ n ∧ n ≤ 122 then n - 32 else n

/-- ASCII lowercasing of one codepoint (model of `str.lower`). -/
def lowChar (n : Nat) : Nat := if 65 ≤ n ∧ n ≤ 90 then n + 32 else n

/-- `str.upper()`. -/
def upperStr (s : Str) : Str := s.map upChar

/-- `str.lower()`. -/
def lowerStr (s : Str) : Str := s.map lowChar

/-- The characters kept by the regex replacement
`str.replace(r'[^A-Z0-9 ]', '', regex=True)` in `normalize_importer_names`:
uppercase ASCII letters, digits, and the space. -/
def keepChar (n : Nat) : Bool := decide ((65 ≤ n ∧ n ≤ 90) ∨ (48 ≤ n ∧ n ≤ 57) ∨ n = 32)

/-- Line 29 of `src/main.py`: `.str.upper()`, strip every character outside
`[A-Z0-9 ]`, then `.str.strip()`. -/
def normalizeName (s : Str) : Str := pyStrip ((upperStr s).filter keepChar)

/-- `pat.startsWith`-style check used to implement substring search. -/
def startsWithS : Str → Str → Bool
  | [], _ => true
  | _ :: _, [] => false
  | a :: as, b :: bs => decide (a = b) && startsWithS as bs

/-- Python `pat in s` substring containment. -/
def containsSub : Str → Str → Bool
  | [], pat => pat.isEmpty
  | c :: rest, pat => startsWithS pat (c :: rest) || containsSub rest pat

/-- ASCII digit test. -/
def isDigitN (n : Nat) : Bool := decide (48 ≤ n ∧ n ≤ 57)

/-- Value of an all-digit codepoint string. -/
def digitsToNat (s : Str) : Nat := s.foldl (fun acc d => acc * 10 + (d - 48)) 0

/-- All-digit test. -/
def allDigits (s : Str) : Bool := s.all isDigitN

/-- Model of `pd.to_numeric(..., errors='coerce')` on a string cell:
optional sign, decimal digits with an optional single decimal point;
anything else coerces to null (`none`). -/
def parseNumber (s : Str) : Option ℚ :=
  let sgn : ℚ × Str :=
    match s with
    | 45 :: r => (-1, r)
    | 43 :: r => (1, r)
    | r => (1, r)
  let ip := sgn.2.takeWhile (fun c => decide (c ≠ 46))
  let fp := sgn.2.dropWhile (fun c => decide (c ≠ 46))
  match fp with
  | [] =>
    if allDigits ip && !ip.isEmpty then some (sgn.1 * digitsToNat ip) else none
  | 46 :: fr =>
    if allDigits ip && allDigits fr && (!ip.isEmpty || !fr.isEmpty) then
      some (sgn.1 * ((digitsToNat ip : ℚ) + (digitsToNat fr : ℚ) / 10 ^ fr.length))
    else none
  | _ => none

/-- Numeric coercion of a nullable cell: NaN stays NaN. -/
def toNumeric (c : Option Str) : Option ℚ := c.bind parseNumber

/-- A parsed calendar date (the fields of a pandas `Timestamp` this
pipeline actually uses). -/
structure PyDate where
  year : Nat
  month : Nat
  day : Nat
deriving DecidableEq

/-- Model of `pd.to_datetime(..., errors='coerce')` on one string cell,
for the ISO `YYYY-MM-DD` format carried by the input exports; any
unparsable value coerces to null (`none`). -/
def parseDateStr (s : Str) : Option PyDate :=
  match s with
  | [y1, y2, y3, y4, 45, m1, m2, 45, d1, d2] =>
    if allDigits [y1, y2, y3, y4] && allDigits [m1, m2] && allDigits [d1, d2] then
      let m := digitsToNat [m1, m2]
      let d := digitsToNat [d1, d2]
      if 1 ≤ m && m ≤ 12 && 1 ≤ d && d ≤ 31 then
        some ⟨digitsToNat [y1, y2, y3, y4], m, d⟩
      else none
    else none
  | _ => none

/-- Date coercion of a nullable cell. -/
def parseDateC (c : Option Str) : Option PyDate := c.bind parseDateStr

/-- Full English month name, as produced by `strftime('%B')`. -/
def monthName : Nat → Str
  | 1 => strLit "January"
  | 2 => strLit "February"
  | 3 => strLit "March"
  | 4 => strLit "April"
  | 5 => strLit "May"
  | 6 => strLit "June"
  | 7 => strLit "July"
  | 8 => strLit "August"
  | 9 => strLit "September"
  | 10 => strLit "October"
  | 11 => strLit "November"
  | 12 => strLit "December"
  | _ => []

/-- Zero-padded two-digit rendering, as produced by `strftime('%d')`. -/
def twoDigit (n : Nat) : Str := [48 + n / 10 % 10, 48 + n % 10]

/-- `strftime('%B%d')` (line 82 of `src/main.py`), e.g. `January05`. -/
def monthDayStr (d : PyDate) : Str := monthName d.month ++ twoDigit d.day

/-- `astype(str)` on a nullable string cell: NaN renders as `"nan"`. -/
def pyStr : Option Str → Str
  | none => strLit "nan"
  | some s => s

/-! ## Fuzzy matching (`rapidfuzz`), lines 31-46 of `src/main.py` -/

/-- Lexicographic Bool-valued order on codepoint strings, used both for
sorting tokens inside `token_sort_ratio` and to model the sorted group
keys produced by pandas `groupby(sort=True)`. -/
def strLeB : Str → Str → Bool
  | [], _ => true
  | _ :: _, [] => false
  | a :: as, b :: bs => if a < b then true else if b < a then false else strLeB as bs

/-- Propositional form of `strLeB`. -/
def strLe (a b : Str) : Prop := strLeB a b = true

instance : DecidableRel strLe := fun a b => instDecidableEqBool (strLeB a b) true

/-- Sort strings lexicographically. -/
def sortStrs (l : List Str) : List Str := List.insertionSort strLe l

/-- Split a string at whitespace, keeping the (possibly empty) pieces. -/
def splitAux : Str → List Str
  | [] => [[]]
  | c :: rest =>
    let r := splitAux rest
    if isWsp c then [] :: r
    else
      match r with
      | t :: ts => (c :: t) :: ts
      | [] => [[c]]

/-- Whitespace tokenization, dropping empty tokens (how `rapidfuzz`
splits a string for the `token_sort` scorers). -/
def tokensOf (s : Str) : List Str := (splitAux s).filter (fun t => !t.isEmpty)

/-- The token-sorted rendering: sort the whitespace tokens and rejoin
them with single spaces. -/
def sortTokens (s : Str) : Str := List.intercalate [32] (sortStrs (tokensOf s))

/-- Longest common subsequence length, the match count underlying the
Indel-based `rapidfuzz` `ratio`. -/
def lcs : Str → Str → Nat
  | [], _ => 0
  | _ :: _, [] => 0
  | a :: as, b :: bs =>
    if a = b then lcs as bs + 1
    else max (lcs (a :: as) bs) (lcs as (b :: bs))

/-- `rapidfuzz` `ratio` on a 0-100 scale as an exact rational:
`100 * (1 - indel_distance/(|a|+|b|)) = 200*lcs/(|a|+|b|)`,
with the convention that two empty strings score 100. -/
def ratioQ (a b : Str) : ℚ :=
  if a.length + b.length = 0 then 100
  else 200 * (lcs a b : ℚ) / ((a.length : ℚ) + (b.length : ℚ))

/-- `fuzz.token_sort_ratio`: `ratio` of the token-sorted renderings. -/
def tokenSortScore (a b : Str) : ℚ := ratioQ (sortTokens a) (sortTokens b)

/-- Scan of `process.extractOne`: keep the first choice attaining the
maximal score (updates only on strictly larger scores). -/
def extractGo (q : Str) : Str × ℚ → List Str → Str × ℚ
  | best, [] => best
  | best, c :: cs =>
    extractGo q (if best.2 < tokenSortScore q c then (c, tokenSortScore q c) else best) cs

/-- `process.extractOne(name, choices, scorer=fuzz.token_sort_ratio)`:
best match and its score; `none` on an empty choice list. -/
def extractOne (q : Str) : List Str → Option (Str × ℚ)
  | [] => none
  | c :: cs => some (extractGo q (c, tokenSortScore q c) cs)

/-- One iteration of the deduplication loop of `normalize_importer_names`
(lines 34-46): state is `(unique_names, name_mapping)`; the mapping is an
association list in insertion order. -/
def dedupStep : List Str × List (Str × Str) → Str → List Str × List (Str × Str)
  | (us, m), name =>
    if us.isEmpty then (us ++ [name], m ++ [(name, name)])
    else
      match extractOne name us with
      | some (mt, sc) =>
        if 90 ≤ sc then (us, m ++ [(name, mt)])
        else (us ++ [name], m ++ [(name, name)])
      | none => (us ++ [name], m ++ [(name, name)])

/-- The whole deduplication loop over a list of (already distinct)
normalized names. -/
def buildMapping (names : List Str) : List Str × List (Str × Str) :=
  names.foldl dedupStep ([], [])

/-- `pandas.Series.unique`: the distinct values in first-seen order. -/
def firstSeen {α : Type} [DecidableEq α] : List α → List α
  | [] => []
  | x :: xs => x :: firstSeen (xs.filter (fun y => decide (y ≠ x)))
termination_by l => l.length
decreasing_by
  exact Nat.lt_succ_of_le (List.length_filter_le _ _)

/-- The canonical-name mapping computed (and then discarded) by
`normalize_importer_names`: deduplication over the distinct normalized
names in first-seen order. -/
def nameMappingOf (normalized : List Str) : List (Str × Str) :=
  (buildMapping (firstSeen normalized)).2

/-! ## Row data model and the derivation pipeline (lines 50-93) -/

/-- One row of the unified table, as read from a validated file: the seven
required columns plus the `source_file` tag.  `none` is NaN. -/
structure RawRow where
  importer : Option Str
  date : Option Str
  masterBillNumber : Option Str
  quantity : Option Str
  valueUSD : Option Str
  unitPriceUSD : Option Str
  description : Option Str
  sourceFile : Str
deriving DecidableEq

/-- A unified-table row after the line-77 importer cleanup, optionally
carrying the `Normalized_Importer` column added on line 29. -/
structure WRow where
  importer : Str
  normalizedImporter : Option Str
  date : Option Str
  masterBillNumber : Option Str
  quantity : Option Str
  valueUSD : Option Str
  unitPriceUSD : Option Str
  description : Option Str
  sourceFile : Str
deriving DecidableEq

/-- Line 77: `df['Importer'] = df['Importer'].astype(str).str.strip().str.upper()`. -/
def preOf (r : RawRow) : WRow :=
  { importer := upperStr (pyStrip (pyStr r.importer))
    normalizedImporter := none
    date := r.date
    masterBillNumber := r.masterBillNumber
    quantity := r.quantity
    valueUSD := r.valueUSD
    unitPriceUSD := r.unitPriceUSD
    description := r.description
    sourceFile := r.sourceFile }

/-- Line 29 applied to one row: add the `Normalized_Importer` column. -/
def addNorm (r : WRow) : WRow :=
  { r with normalizedImporter := some (normalizeName r.importer) }

/-- `normalize_importer_names` (lines 28-48): adds the normalized column,
computes the canonical-name mapping, and returns the frame; the mapping is
never applied to the frame (faithful to the source, which drops it). -/
def normalizeImporterNames (df : List WRow) : List WRow :=
  let df1 := df.map addNorm
  let _mapping := nameMappingOf (df1.filterMap (fun r => r.normalizedImporter))
  df1

/-- One fully derived row (lines 80-93): parsed date, `Date_str`,
re-coerced bill number, container name, and the numeric aliases. -/
structure DerivedRow where
  importer : Str
  normalizedImporter : Option Str
  date : Option PyDate
  dateStr : Option Str
  masterBillNumber : Option Str
  uniqueMasterBillNumber : Str
  containerName : Str
  quantity : Option ℚ
  weightKgs : Option ℚ
  valueUSD : Option ℚ
  unitPriceUSD : Option ℚ
  shipmentCost : Option ℚ
  description : Option Str
  sourceFile : Str
deriving DecidableEq

/-- Lines 80-93 applied to one row.  Note the pandas null propagation on
line 84: `Importer + " " + Date_str` is NaN whenever `Date_str` is NaN, so
`fillna` leaves a null bill number null in that case; line 86's
`astype(str)` then renders it as the literal string `"nan"`. -/
def deriveRest (r : WRow) : DerivedRow :=
  let date := parseDateC r.date
  let dateStr := date.map monthDayStr
  let mbn1 : Option Str :=
    if pyStr r.masterBillNumber = strLit "nan" then none else some (pyStr r.masterBillNumber)
  let fallback : Option Str := dateStr.map (fun ds => r.importer ++ [32] ++ ds)
  let mbn2 : Option Str :=
    match mbn1 with
    | some v => some v
    | none => fallback
  let umbn := pyStrip (pyStr mbn2)
  { importer := r.importer
    normalizedImporter := r.normalizedImporter
    date := date
    dateStr := dateStr
    masterBillNumber := mbn2
    uniqueMasterBillNumber := umbn
    containerName := umbn
    quantity := toNumeric r.quantity
    weightKgs := toNumeric r.quantity
    valueUSD := toNumeric r.valueUSD
    unitPriceUSD := toNumeric r.unitPriceUSD
    shipmentCost := toNumeric r.valueUSD
    description := r.description
    sourceFile := r.sourceFile }

/-- The whole derivation stage, as the script runs it over the unified
table: importer cleanup, `normalize_importer_names`, then lines 80-93. -/
def deriveTable (raws : List RawRow) : List DerivedRow :=
  (normalizeImporterNames (raws.map preOf)).map deriveRest

/-- Row-level composition of the three derivation stages. -/
def rowPipeline (r : RawRow) : DerivedRow := deriveRest (addNorm (preOf r))

/-! ## Aggregates (lines 95-119) -/

/-- pandas `GroupBy.sum()` over a nullable numeric column: NaN is skipped,
i.e. counted as 0; an all-NaN or empty group sums to 0. -/
def sumOptQ (l : List (Option ℚ)) : ℚ := (l.map (fun x => x.getD 0)).sum

/-- Lexicographic Bool-valued order on `(Container Name, Description)`
group keys. -/
def keyLeB : Str × Str → Str × Str → Bool
  | (a1, a2), (b1, b2) =>
    if strLeB a1 b1 then (if strLeB b1 a1 then strLeB a2 b2 else true) else false

/-- Propositional form of `keyLeB`. -/
def keyLe (a b : Str × Str) : Prop := keyLeB a b = true

instance : DecidableRel keyLe := fun a b => instDecidableEqBool (keyLeB a b) true

/-- The `(Container Name, Description)` key of a derived row; only used on
rows whose `Description` is non-null. -/
def wppKey (r : DerivedRow) : Str × Str := (r.containerName, r.description.getD [])

/-- Lines 106-109, `weight_per_product`:
`groupby(['Container Name','Description'])['Weight (kgs)'].sum()`.
pandas `groupby` drops rows whose group key contains NaN (default
`dropna=True`), and lists group keys in sorted order (default `sort=True`).
Output triples are (container, description, summed weight). -/
def weightPerProduct (df : List DerivedRow) : List (Str × Str × ℚ) :=
  let rows := df.filter (fun r => r.description.isSome)
  let keys := List.insertionSort keyLe (firstSeen (rows.map wppKey))
  keys.map (fun k =>
    (k.1, k.2, sumOptQ ((rows.filter (fun r => decide (wppKey r = k))).map (fun r => r.weightKgs))))

/-- Lines 95-104, `products_per_container`: per container, the first-seen
distinct non-null descriptions and their count.  Container names are
strings (never NaN), so no group is dropped. -/
def productsPerContainer (df : List DerivedRow) : List (Str × Nat × List Str) :=
  let keys := sortStrs (firstSeen (df.map (fun r => r.containerName)))
  keys.map (fun c =>
    let ds := firstSeen ((df.filter (fun r => decide (r.containerName = c))).filterMap
      (fun r => r.description))
    (c, ds.length, ds))

/-- Lines 111-114, `shipment_cost_per_container`:
`groupby('Container Name')['Shipment Cost'].sum()`. -/
def shipmentCostPerContainer (df : List DerivedRow) : List (Str × ℚ) :=
  (sortStrs (firstSeen (df.map (fun r => r.containerName)))).map (fun c =>
    (c, sumOptQ ((df.filter (fun r => decide (r.containerName = c))).map
      (fun r => r.shipmentCost))))

/-- Lines 116-119, `revenue_per_importer`:
`groupby('Importer')['Value (USD)'].sum()`. -/
def revenuePerImporter (df : List DerivedRow) : List (Str × ℚ) :=
  (sortStrs (firstSeen (df.map (fun r => r.importer)))).map (fun i =>
    (i, sumOptQ ((df.filter (fun r => decide (r.importer = i))).map
      (fun r => r.valueUSD))))

/-! ## File ingestion (lines 50-76) -/

/-- A parsed spreadsheet: the table `pd.read_excel(file, header=1)`
produced, before the index column is dropped.  Each row is aligned with
`cols`; `none` cells are NaN. -/
structure PTable where
  cols : List Str
  rows : List (List (Option Str))
deriving DecidableEq

/-- One uploaded file: its name, and `some` parsed table, or `none` when
`pd.read_excel` raises. -/
structure InputFile where
  name : Str
  parsed : Option PTable
deriving DecidableEq

/-- Lines 16-19: the required-column set. -/
def requiredColumns : List Str :=
  [strLit "Importer", strLit "Date", strLit "Master Bill Number", strLit "Quantity",
   strLit "Value(USD)", strLit "Unit Price(USD)", strLit "Description"]

/-- Line 56: `df = df.iloc[:, 1:]` — drop the leading index column. -/
def dropFirstCol (t : PTable) : PTable :=
  { cols := t.cols.drop 1, rows := t.rows.map (List.drop 1) }

/-- Line 58: `df.empty or df.dropna(how='all').shape[0] == 0`. -/
def tableEmpty (t : PTable) : Bool :=
  t.rows.isEmpty || t.cols.isEmpty || t.rows.all (fun row => row.all (fun c => c.isNone))

/-- Line 62: `df.columns = [col.strip() for col in df.columns]`. -/
def stripCols (t : PTable) : PTable := { t with cols := t.cols.map pyStrip }

/-- Line 63: the required columns absent after index-drop and name-trim. -/
def missingAfterPrep (t0 : PTable) : List Str :=
  requiredColumns.filter (fun c => decide (c ∉ (stripCols (dropFirstCol t0)).cols))

/-- Line 68: `df['source_file'] = file.name`. -/
def addSource (nm : Str) (t : PTable) : PTable :=
  { cols := t.cols ++ [strLit "source_file"], rows := t.rows.map (fun row => row ++ [some nm]) }

/-- The user-facing per-file messages of lines 59, 65 and 71. -/
inductive Msg where
  | empty (file : Str)
  | missing (file : Str) (cols : List Str)
  | readError (file : Str)
deriving DecidableEq

/-- Outcome of the per-file loop body: the tagged table appended to
`all_data`, or a skip with its message. -/
inductive FileResult where
  | ok (t : PTable)
  | skip (m : Msg)
deriving DecidableEq

/-- Lines 53-71: validate one uploaded file. -/
def checkFile (f : InputFile) : FileResult :=
  match f.parsed with
  | none => .skip (.readError f.name)
  | some t0 =>
    if tableEmpty (dropFirstCol t0) then .skip (.empty f.name)
    else if (missingAfterPrep t0).isEmpty then
      .ok (addSource f.name (stripCols (dropFirstCol t0)))
    else .skip (.missing f.name (missingAfterPrep t0))

/-- Did the loop keep this file? -/
def isOk : FileResult → Bool
  | .ok _ => true
  | .skip _ => false

/-- `all_data` (lines 51-69): the validated, tagged tables in upload order. -/
def allData (files : List InputFile) : List PTable :=
  files.filterMap (fun f =>
    match checkFile f with
    | .ok t => some t
    | .skip _ => none)

/-- The warnings/errors emitted by the loop, in upload order. -/
def messages (files : List InputFile) : List Msg :=
  files.filterMap (fun f =>
    match checkFile f with
    | .ok _ => none
    | .skip m => some m)

/-- Column lookup in a table row (`df[col]` on one row); a column absent
from this frame reads as NaN, which is how `pd.concat` aligns frames with
differing column sets. -/
def getCol (t : PTable) (row : List (Option Str)) (c : Str) : Option Str :=
  match t.cols.findIdx? (fun c2 => decide (c2 = c)) with
  | some i => (row.get? i).getD none
  | none => none

/-- Extract the seven required columns and the source tag from one
concatenated row. -/
def toRawRow (t : PTable) (row : List (Option Str)) : RawRow :=
  { importer := getCol t row (strLit "Importer")
    date := getCol t row (strLit "Date")
    masterBillNumber := getCol t row (strLit "Master Bill Number")
    quantity := getCol t row (strLit "Quantity")
    valueUSD := getCol t row (strLit "Value(USD)")
    unitPriceUSD := getCol t row (strLit "Unit Price(USD)")
    description := getCol t row (strLit "Description")
    sourceFile := (getCol t row (strLit "source_file")).getD [] }

/-- Line 76: `df = pd.concat(all_data, ignore_index=True)`, restricted to
the columns the rest of the pipeline reads. -/
def unified (files : List InputFile) : List RawRow :=
  ((allData files).map (fun t => t.rows.map (toRawRow t))).flatten

/-- The five tables the report writer receives (lines 167-171). -/
structure Report where
  cleaned : List DerivedRow
  products : List (Str × Nat × List Str)
  weights : List (Str × Str × ℚ)
  costs : List (Str × ℚ)
  revenues : List (Str × ℚ)
deriving DecidableEq

/-- Assemble the report tables from the derived frame. -/
def buildReport (df : List DerivedRow) : Report :=
  ⟨df, productsPerContainer df, weightPerProduct df, shipmentCostPerContainer df,
   revenuePerImporter df⟩

/-- Lines 50-179 end to end: `none` models `st.stop()` on line 74 (no
sheets, no download); otherwise the report is produced. -/
def runPipeline (files : List InputFile) : Option Report :=
  if (allData files).isEmpty then none
  else some (buildReport (deriveTable (unified files)))

/-! ## The report writer's sort step (`write_sheet`, lines 124-138) -/

/-- A spreadsheet cell as `write_sheet` sees it: a numeric or a textual
value, either possibly missing. -/
inductive Cell where
  | num (q : Option ℚ)
  | text (s : Option Str)
deriving DecidableEq

/-- A column header with its pandas dtype's numeric flag. -/
structure WCol where
  name : Str
  numeric : Bool
deriving DecidableEq

/-- A data frame as handed to `write_sheet` (after `drop_columns`). -/
structure WTable where
  cols : List WCol
  rows : List (List Cell)
deriving DecidableEq

/-- Line 131: the keyword substrings scanned for in column names. -/
def keywords : List Str := [strLit "cost", strLit "revenue", strLit "weight", strLit "value"]

/-- Lines 130-132: does this column qualify as the sort column? -/
def keywordCol (c : WCol) : Bool :=
  keywords.any (fun k => containsSub (lowerStr c.name) k) && c.numeric

/-- `next((col for col in df_sheet.columns if ...), None)` — index of the
first qualifying column. -/
def firstQualifying : List WCol → Option Nat
  | [] => none
  | c :: cs => if keywordCol c then some 0 else (firstQualifying cs).map (· + 1)

/-- The sort column chosen by lines 128-135. -/
def sortColIdx (t : WTable) : Option Nat := firstQualifying t.cols

/-- Numeric reading of the `i`-th cell of a row (missing and textual cells
read as NaN). -/
def cellNumAt (i : Nat) (row : List Cell) : Option ℚ :=
  match row.get? i with
  | some (.num q) => q
  | _ => none

/-- `sort_values(by=col, ascending=False)` row comparison: larger values
first, NaN last (`na_position='last'`). -/
def descLeB (i : Nat) (a b : List Cell) : Bool :=
  match cellNumAt i a, cellNumAt i b with
  | some x, some y => decide (y ≤ x)
  | some _, none => true
  | none, some _ => false
  | none, none => true

/-- Propositional form of `descLeB`. -/
def descLe (i : Nat) (a b : List Cell) : Prop := descLeB i a b = true

instance (i : Nat) : DecidableRel (descLe i) :=
  fun a b => instDecidableEqBool (descLeB i a b) true

/-- Lines 128-138: the row order actually written to the sheet.  (The
multiset of rows and the descending order match `sort_values`; pandas'
quicksort leaves the relative order of tied rows unspecified, modelled
here by a stable sort.) -/
def writtenRows (t : WTable) : List (List Cell) :=
  match sortColIdx t with
  | some i => List.insertionSort (descLe i) t.rows
  | none => t.rows

instance (i : Nat) : IsTotal (List Cell) (descLe i) :=
  ⟨by
    intro a b
    unfold descLe descLeB
    rcases h1 : cellNumAt i a with _ | x <;> rcases h2 : cellNumAt i b with _ | y <;>
      simp only [decide_eq_true_eq]
    · exact Or.inl trivial
    · exact Or.inr trivial
    · exact Or.inl trivial
    · exact le_total y x⟩

instance (i : Nat) : IsTrans (List Cell) (descLe i) :=
  ⟨by
    intro a b c hab hbc
    unfold descLe descLeB at *
    rcases h1 : cellNumAt i a with _ | x <;> rcases h2 : cellNumAt i b with _ | y <;>
        rcases h3 : cellNumAt i c with _ | z <;>
        simp only [h1, h2, h3, decide_eq_true_eq] at hab hbc ⊢ <;> try trivial
    exact le_trans hbc hab⟩

/-! ## Claim-side quantities and relations -/

/-- Sum of `Weight (kgs)` over the "Weight per Product" rows whose
Container Name is `c`. -/
def wppContainerSum (df : List DerivedRow) (c : Str) : ℚ :=
  (((weightPerProduct df).filter (fun t => decide (t.1 = c))).map (fun t => t.2.2)).sum

/-- Sum of the numeric-coerced Quantity (`Weight (kgs)`) over all derived
rows whose Container Name is `c`, nulls counted as 0. -/
def rawContainerSum (df : List DerivedRow) (c : Str) : ℚ :=
  ((df.filter (fun r => decide (r.containerName = c))).map (fun r => r.weightKgs.getD 0)).sum

/-- As `rawContainerSum`, but restricted to rows with a non-null
Description (the rows pandas `groupby` actually keeps). -/
def rawContainerSumDescribed (df : List DerivedRow) (c : Str) : ℚ :=
  ((df.filter (fun r => decide (r.containerName = c) && r.description.isSome)).map
    (fun r => r.weightKgs.getD 0)).sum

/-- "Two strings differ only by letter case": their uppercasings agree. -/
def caseEquiv (s t : Str) : Prop := upperStr s = upperStr t

/-- A punctuation codepoint: anything other than an ASCII letter (either
case), a digit, or a space. -/
def isPunctChar (n : Nat) : Bool :=
  !(decide ((65 ≤ n ∧ n ≤ 90) ∨ (97 ≤ n ∧ n ≤ 122) ∨ (48 ≤ n ∧ n ≤ 57) ∨ n = 32))

/-- "Two strings differ only by punctuation": removing punctuation
characters makes them agree. -/
def punctEquiv (s t : Str) : Prop :=
  s.filter (fun c => !isPunctChar c) = t.filter (fun c => !isPunctChar c)

/-- "Two strings differ only by leading/trailing whitespace". -/
def wsEquiv (s t : Str) : Prop := pyStrip s = pyStrip t

/-- One elementary "differs only by case, punctuation, or leading/trailing
whitespace" step; the claim's hypothesis is the chaining of such steps. -/
def trivDiff (s t : Str) : Prop := caseEquiv s t ∨ punctEquiv s t ∨ wsEquiv s t

/-- A `WRow` with its `Normalized_Importer` column removed (for stating
that `normalize_importer_names` changes nothing else). -/
def eraseNorm (r : WRow) : WRow := { r with normalizedImporter := none }

/-! ## Concrete inputs used by witnesses and counterexamples -/

/-- A well-formed uploaded file whose single data row has a null
`Description` cell (and Quantity 5 on container `MB1`). -/
def c1File : InputFile :=
  { name := strLit "a.xlsx"
    parsed := some
      { cols := [strLit "idx", strLit "Importer", strLit "Date", strLit "Master Bill Number",
                 strLit "Quantity", strLit "Value(USD)", strLit "Unit Price(USD)",
                 strLit "Description"]
        rows := [[some (strLit "0"), some (strLit "ACME"), some (strLit "2024-01-05"),
                  some (strLit "MB1"), some (strLit "5"), some (strLit "10"),
                  some (strLit "2"), none]] } }

/-- A raw row with a non-null but empty Importer cell, a parsable Date and
no Master Bill Number. -/
def c2Row : RawRow :=
  { importer := some []
    date := some (strLit "2024-01-05")
    masterBillNumber := none
    quantity := some (strLit "5")
    valueUSD := some (strLit "10")
    unitPriceUSD := some (strLit "2")
    description := some (strLit "WIDGETS")
    sourceFile := strLit "a.xlsx" }

/-- A raw row with importer `ACME`, a parsable date and no bill number
(exercising the synthesized container name). -/
def c2RowB : RawRow :=
  { importer := some (strLit "ACME")
    date := some (strLit "2024-01-05")
    masterBillNumber := none
    quantity := some (strLit "5")
    valueUSD := some (strLit "10")
    unitPriceUSD := some (strLit "2")
    description := some (strLit "WIDGETS")
    sourceFile := strLit "a.xlsx" }

/-- A raw row with importer `ACME`, an unparsable Date and a null Master
Bill Number. -/
def c9Row : RawRow :=
  { importer := some (strLit "ACME")
    date := some (strLit "notadate")
    masterBillNumber := none
    quantity := some (strLit "5")
    valueUSD := some (strLit "10")
    unitPriceUSD := some (strLit "2")
    description := some (strLit "WIDGETS")
    sourceFile := strLit "a.xlsx" }

/-- An unreadable file (`pd.read_excel` raises). -/
def c6FileUnreadable : InputFile := { name := strLit "u.xlsx", parsed := none }

/-- A file that is empty after the index column is dropped. -/
def c6FileEmpty : InputFile :=
  { name := strLit "e.xlsx", parsed := some { cols := [strLit "idx"], rows := [] } }

/-- A readable, non-empty file missing six of the required columns. -/
def c6FileMissing : InputFile :=
  { name := strLit "m.xlsx"
    parsed := some
      { cols := [strLit "idx", strLit "Importer"]
        rows := [[some (strLit "0"), some (strLit "A")]] } }

/-- A parsed table that is non-empty but missing six required columns. -/
def c7BadTable : PTable :=
  { cols := [strLit "idx", strLit "Importer"]
    rows := [[some (strLit "0"), some (strLit "A")]] }

/-- A readable, non-empty file missing six of the required columns
(C7's concrete skipped file). -/
def c7FileBad : InputFile := { name := strLit "bad.xlsx", parsed := some c7BadTable }

/-- A fully valid uploaded file (C7's concrete surviving file). -/
def c7FileGood : InputFile :=
  { name := strLit "good.xlsx"
    parsed := some
      { cols := [strLit "idx", strLit "Importer", strLit "Date", strLit "Master Bill Number",
                 strLit "Quantity", strLit "Value(USD)", strLit "Unit Price(USD)",
                 strLit "Description"]
        rows := [[some (strLit "0"), some (strLit "ACME"), some (strLit "2024-01-05"),
                  some (strLit "MB1"), some (strLit "100"), some (strLit "500"),
                  some (strLit "5"), some (strLit "WIDGETS")]] } }

/-- A small sheet whose second column is numeric and named `Total Cost`. -/
def c5Table : WTable :=
  { cols := [{ name := strLit "Name", numeric := false },
             { name := strLit "Total Cost", numeric := true }]
    rows := [[Cell.text (some (strLit "b")), Cell.num (some 1)],
             [Cell.text (some (strLit "a")), Cell.num (some 5)],
             [Cell.text (some (strLit "c")), Cell.num none]] }

/-! ## Helper lemmas -/

lemma sum_map_add {κ : Type} (K : List κ) (A B : κ → ℚ) :
    (K.map (fun k => A k + B k)).sum = (K.map A).sum + (K.map B).sum := by
  induction K with
  | nil => simp
  | cons k K ih =>
    simp only [List.map_cons, List.sum_cons, ih]
    ring

lemma sum_ite_single {κ : Type} [DecidableEq κ] (x : ℚ) :
    ∀ (K : List κ) (k0 : κ), k0 ∈ K → K.Nodup →
      (K.map (fun k => if k0 = k then x else 0)).sum = x := by
  intro K
  induction K with
  | nil => intro k0 h; cases h
  | cons k K ih =>
    intro k0 hmem hnd
    rcases List.mem_cons.mp hmem with h | h
    · subst h
      have hz : (K.map (fun k => if k0 = k then x else 0)).sum = 0 := by
        apply List.sum_eq_zero
        intro y hy
        rcases List.mem_map.mp hy with ⟨k', hk', rfl⟩
        have hne : k0 ≠ k' := by
          intro e
          exact (List.nodup_cons.mp hnd).1 (e ▸ hk')
        simp [hne]
      simp [hz]
    · have hne : k0 ≠ k := by
        intro e
        exact (List.nodup_cons.mp hnd).1 (e ▸ h)
      have := ih k0 h (List.nodup_cons.mp hnd).2
      simp [hne, this]

/-- Summing a weight fiber-by-fiber over a duplicate-free key list that
covers every element recovers the total sum. -/
lemma sum_fibers {α κ : Type} [DecidableEq κ] (f : α → κ) (w : α → ℚ) :
    ∀ (L : List α) (K : List κ), K.Nodup → (∀ a ∈ L, f a ∈ K) →
      (K.map (fun k => ((L.filter (fun x => decide (f x = k))).map w).sum)).sum
        = (L.map w).sum := by
  intro L
  induction L with
  | nil =>
    intro K _ _
    simp only [List.filter_nil, List.map_nil, List.sum_nil]
    exact List.sum_eq_zero (by intro y hy; rcases List.mem_map.mp hy with ⟨k, _, rfl⟩; rfl)
  | cons a L ih =>
    intro K hnd hmem
    have h1 : ∀ k : κ, (((a :: L).filter (fun x => decide (f x = k))).map w).sum
        = (if f a = k then w a else 0) + ((L.filter (fun x => decide (f x = k))).map w).sum := by
      intro k
      by_cases h : f a = k
      · simp [List.filter_cons, h]
      · simp [List.filter_cons, h]
    simp only [h1, sum_map_add]
    rw [sum_ite_single (w a) K (f a) (hmem a (List.mem_cons_self a L)) hnd]
    rw [ih K hnd (fun x hx => hmem x (List.mem_cons_of_mem a hx))]
    simp

lemma firstSeen_mem {α : Type} [DecidableEq α] (a : α) :
    ∀ l : List α, a ∈ firstSeen l ↔ a ∈ l := by
  intro l
  induction l using firstSeen.induct with
  | case1 => simp [firstSeen]
  | case2 x xs ih =>
    rw [firstSeen]
    by_cases h : a = x
    · subst h; simp
    · simp only [List.mem_cons, ih, List.mem_filter, decide_eq_true_eq]
      constructor
      · rintro (h' | ⟨h', _⟩)
        · exact absurd h' h
        · exact Or.inr h'
      · rintro (h' | h')
        · exact absurd h' h
        · exact Or.inr ⟨h', h⟩

lemma firstSeen_nodup {α : Type} [DecidableEq α] :
    ∀ l : List α, (firstSeen l).Nodup := by
  intro l
  induction l using firstSeen.induct with
  | case1 => simp [firstSeen]
  | case2 x xs ih =>
    rw [firstSeen]
    refine List.nodup_cons.mpr ⟨?_, ih⟩
    intro hx
    have := (firstSeen_mem x _).mp hx
    have := (List.mem_filter.mp this).2
    simp at this

lemma firstSeen_sublist {α : Type} [DecidableEq α] :
    ∀ l : List α, List.Sublist (firstSeen l) l := by
  intro l
  induction l using firstSeen.induct with
  | case1 => simp [firstSeen]
  | case2 x xs ih =>
    rw [firstSeen]
    exact (ih.trans (List.filter_sublist xs)).cons₂ x

/-! ## Claim C1 -/

/-- C1 (counterexample): the claim as stated is false on the code.  At the
single-file input `c1File`, whose only row lands on container `MB1` with
Quantity 5 but a null `Description`, pandas `groupby` drops the row from
the "Weight per Product" aggregate (NaN group key), so the aggregate's
weight total for `MB1` is 0 while the unified derived table's
nulls-as-0 Quantity total for `MB1` is 5. -/
theorem c1_counterexample :
    wppContainerSum (deriveTable (unified [c1File])) (strLit "MB1")
      ≠ rawContainerSum (deriveTable (unified [c1File])) (strLit "MB1") := by
  with_unfolding_all decide

/-- C1 (amended): for every container name `c`, the sum of `Weight (kgs)`
over the "Weight per Product" rows whose Container Name is `c` equals the
sum of the numeric-coerced Quantity values (nulls as 0) over the rows of
the unified derived table whose Container Name is `c` **and whose
Description is non-null** — the rows with a null Description are dropped
by the grouped aggregation's null-key policy. -/
theorem c1_weight_per_product_container_sum (df : List DerivedRow) (c : Str) :
    wppContainerSum df c = rawContainerSumDescribed df c := by
  classical
  unfold wppContainerSum rawContainerSumDescribed weightPerProduct
  rw [List.filter_map, List.map_map]
  simp only [Function.comp_def, sumOptQ, List.map_map]
  rw [← List.filter_filter]
  set rows := List.filter (fun r => r.description.isSome) df with hrows
  set K := List.insertionSort keyLe (firstSeen (List.map wppKey rows)) with hK
  have hKnd : K.Nodup :=
    (List.perm_insertionSort keyLe (firstSeen (List.map wppKey rows))).symm.nodup
      (firstSeen_nodup _)
  have hKcnd : (K.filter (fun x => decide (x.1 = c))).Nodup := hKnd.filter _
  have hfib : ∀ k ∈ K.filter (fun x => decide (x.1 = c)),
      ((List.map (fun x => x.weightKgs.getD 0)
          (List.filter (fun r => decide (wppKey r = k)) rows))).sum
        = ((List.map (fun x => x.weightKgs.getD 0)
            (List.filter (fun x => decide (wppKey x = k))
              (List.filter (fun r => decide (r.containerName = c)) rows)))).sum := by
    intro k hk
    have hkc : k.1 = c := by
      have := (List.mem_filter.mp hk).2
      simpa using this
    have hft : List.filter (fun r => decide (wppKey r = k)) rows
        = List.filter (fun x => decide (wppKey x = k))
            (List.filter (fun r => decide (r.containerName = c)) rows) := by
      conv_rhs => rw [List.filter_filter]
      apply List.filter_congr
      intro r hr
      by_cases hkey : wppKey r = k
      · have hcont : r.containerName = c := by
          have h5 : (wppKey r).1 = k.1 := congrArg Prod.fst hkey
          simpa [wppKey, hkc] using h5
        simp [hkey, hcont]
      · simp [hkey]
    rw [hft]
  have hmem : ∀ a ∈ List.filter (fun r => decide (r.containerName = c)) rows,
      wppKey a ∈ K.filter (fun x => decide (x.1 = c)) := by
    intro a ha
    have ha1 : a ∈ rows := (List.mem_filter.mp ha).1
    have ha2 : a.containerName = c := by simpa using (List.mem_filter.mp ha).2
    have h0 : wppKey a ∈ List.map wppKey rows := List.mem_map_of_mem _ ha1
    have h1 : wppKey a ∈ firstSeen (List.map wppKey rows) := (firstSeen_mem _ _).mpr h0
    have h2 : wppKey a ∈ K := ((List.perm_insertionSort keyLe _).mem_iff).mpr h1
    exact List.mem_filter.mpr ⟨h2, by simpa [wppKey] using ha2⟩
  calc (List.map (fun k => (List.map (fun x => x.weightKgs.getD 0)
            (List.filter (fun r => decide (wppKey r = k)) rows)).sum)
          (List.filter (fun x => decide (x.1 = c)) K)).sum
      = (List.map (fun k => (List.map (fun x => x.weightKgs.getD 0)
            (List.filter (fun x => decide (wppKey x = k))
              (List.filter (fun r => decide (r.containerName = c)) rows))).sum)
          (List.filter (fun x => decide (x.1 = c)) K)).sum := by
        congr 1
        exact List.map_eq_map_iff.mpr hfib
    _ = (List.map (fun x => x.weightKgs.getD 0)
          (List.filter (fun r => decide (r.containerName = c)) rows)).sum :=
        sum_fibers wppKey (fun x => x.weightKgs.getD 0) _ _ hKcnd hmem

/-! ## Claim C6 -/

/-- C6: if every uploaded file is skipped (unreadable, empty, or missing
required columns), `all_data` stays empty, the run halts at `st.stop()`
and no output artifact is produced (`runPipeline` yields `none`: no
sheets, no download). -/
theorem c6_all_files_skipped_halts (files : List InputFile)
    (h : ∀ f ∈ files, isOk (checkFile f) = false) : runPipeline files = none := by
  have hall : allData files = [] := by
    induction files with
    | nil => rfl
    | cons f fs ih =>
      have hf := h f (List.mem_cons_self f fs)
      have ht := ih (fun g hg => h g (List.mem_cons_of_mem f hg))
      unfold allData at ht ⊢
      rw [List.filterMap_cons]
      cases hc : checkFile f with
      | ok t => rw [hc] at hf; simp [isOk] at hf
      | skip m => simp only [hc]; exact ht
  unfold runPipeline
  rw [hall]
  rfl

/-- C6 (witness): a concrete batch containing one unreadable, one empty
and one missing-columns file is entirely skipped and produces no output. -/
theorem c6_all_files_skipped_halts_witness :
    (∀ f ∈ [c6FileUnreadable, c6FileEmpty, c6FileMissing], isOk (checkFile f) = false) ∧
    runPipeline [c6FileUnreadable, c6FileEmpty, c6FileMissing] = none :=
  ⟨by decide, c6_all_files_skipped_halts [c6FileUnreadable, c6FileEmpty, c6FileMissing]
    (by decide)⟩

/-! ## Claim C7 -/

/-- C7: a readable, non-empty uploaded file that lacks at least one of the
seven required columns (after index-column dropping and column-name
trimming) yields a missing-columns warning, contributes nothing to the
concatenated unified table, and the run continues: the messages and the
unified table of the other files are unchanged, and the whole pipeline
output equals the pipeline output with the offending file removed, so
none of its rows appear in any output sheet. -/
theorem c7_missing_columns_skipped (xs ys : List InputFile) (f : InputFile) (t0 : PTable)
    (h1 : f.parsed = some t0) (h2 : tableEmpty (dropFirstCol t0) = false)
    (h3 : missingAfterPrep t0 ≠ []) :
    checkFile f = .skip (.missing f.name (missingAfterPrep t0)) ∧
    Msg.missing f.name (missingAfterPrep t0) ∈ messages (xs ++ f :: ys) ∧
    messages (xs ++ f :: ys)
      = messages xs ++ Msg.missing f.name (missingAfterPrep t0) :: messages ys ∧
    unified (xs ++ f :: ys) = unified xs ++ unified ys ∧
    runPipeline (xs ++ f :: ys) = runPipeline (xs ++ ys) := by
  have h3' : (missingAfterPrep t0).isEmpty = false := by
    cases hm : missingAfterPrep t0 with
    | nil => exact absurd hm h3
    | cons a l => rfl
  have hcf : checkFile f = .skip (.missing f.name (missingAfterPrep t0)) := by
    unfold checkFile
    rw [h1]
    simp [h2, h3']
  have ha : allData (xs ++ f :: ys) = allData xs ++ allData ys := by
    unfold allData
    rw [List.filterMap_append, List.filterMap_cons]
    simp [hcf]
  have ha2 : allData (xs ++ ys) = allData xs ++ allData ys := by
    unfold allData
    rw [List.filterMap_append]
  have hmsg : messages (xs ++ f :: ys)
      = messages xs ++ Msg.missing f.name (missingAfterPrep t0) :: messages ys := by
    unfold messages
    rw [List.filterMap_append, List.filterMap_cons]
    simp [hcf]
  have hu : unified (xs ++ f :: ys) = unified xs ++ unified ys := by
    unfold unified
    rw [ha, List.map_append, List.flatten_append]
  have hu2 : unified (xs ++ ys) = unified xs ++ unified ys := by
    unfold unified
    rw [ha2, List.map_append, List.flatten_append]
  refine ⟨hcf, ?_, hmsg, hu, ?_⟩
  · rw [hmsg]
    exact List.mem_append_right _ (List.mem_cons_self _ _)
  · unfold runPipeline
    rw [ha, ha2, hu, hu2]

/-- C7 (witness): the concrete file `c7FileBad` (readable, non-empty,
missing six required columns) is skipped with a warning while the valid
file `c7FileGood` is processed as if `c7FileBad` had not been uploaded. -/
theorem c7_missing_columns_skipped_witness :
    checkFile c7FileBad = .skip (.missing c7FileBad.name (missingAfterPrep c7BadTable)) ∧
    Msg.missing c7FileBad.name (missingAfterPrep c7BadTable)
      ∈ messages ([] ++ c7FileBad :: [c7FileGood]) ∧
    messages ([] ++ c7FileBad :: [c7FileGood])
      = messages [] ++ Msg.missing c7FileBad.name (missingAfterPrep c7BadTable)
          :: messages [c7FileGood] ∧
    unified ([] ++ c7FileBad :: [c7FileGood]) = unified [] ++ unified [c7FileGood] ∧
    runPipeline ([] ++ c7FileBad :: [c7FileGood]) = runPipeline ([] ++ [c7FileGood]) :=
  c7_missing_columns_skipped [] [c7FileGood] c7FileBad c7BadTable rfl (by decide) (by decide)

/-! ## Claim C8 -/

/-- Shared fact: the derivation stage is exactly a per-row total map. -/
lemma deriveTable_eq_map (raws : List RawRow) : deriveTable raws = raws.map rowPipeline := by
  unfold deriveTable normalizeImporterNames rowPipeline
  simp [List.map_map, Function.comp_def]

/-- C8: field derivation is a total per-row function that never raises and
never drops a row: the derived table is the row-by-row image of the
unified table (hence has exactly its rows, in order), and the Date,
Quantity, Value(USD) and Unit Price(USD) fields of each derived row are
the null-coercing parses of that row's cells (unparsable values become
null). -/
theorem c8_derivation_total (raws : List RawRow) :
    deriveTable raws = raws.map rowPipeline ∧
    (deriveTable raws).length = raws.length ∧
    ∀ r : RawRow,
      (rowPipeline r).date = parseDateC r.date ∧
      (rowPipeline r).quantity = toNumeric r.quantity ∧
      (rowPipeline r).weightKgs = toNumeric r.quantity ∧
      (rowPipeline r).valueUSD = toNumeric r.valueUSD ∧
      (rowPipeline r).shipmentCost = toNumeric r.valueUSD ∧
      (rowPipeline r).unitPriceUSD = toNumeric r.unitPriceUSD ∧
      (rowPipeline r).description = r.description ∧
      (rowPipeline r).sourceFile = r.sourceFile := by
  refine ⟨deriveTable_eq_map raws, ?_, ?_⟩
  · rw [deriveTable_eq_map]; simp
  · intro r
    exact ⟨rfl, rfl, rfl, rfl, rfl, rfl, rfl, rfl⟩

/-! ## Claim C10 -/

/-- C10: `normalize_importer_names` only adds the `Normalized_Importer`
column — every other field of every row, in particular the `Importer`
column, is returned unchanged, and the computed canonical-name mapping is
discarded; consequently the keys of the "Total Value per Importer"
aggregate are exactly the trimmed, uppercased raw importer names of the
unified table, never the fuzzy-merged canonical forms. -/
theorem c10_normalization_keeps_importer :
    (∀ df : List WRow, (normalizeImporterNames df).map eraseNorm = df.map eraseNorm) ∧
    (∀ df : List WRow, (normalizeImporterNames df).map (fun r => r.importer)
        = df.map (fun r => r.importer)) ∧
    (∀ raws : List RawRow,
      ((revenuePerImporter (deriveTable raws)).map Prod.fst).toFinset
        = (raws.map (fun r => upperStr (pyStrip (pyStr r.importer)))).toFinset) := by
  refine ⟨?_, ?_, ?_⟩
  · intro df
    unfold normalizeImporterNames
    rw [List.map_map]
    rfl
  · intro df
    unfold normalizeImporterNames
    rw [List.map_map]
    rfl
  · intro raws
    have hkeys : (revenuePerImporter (deriveTable raws)).map Prod.fst
        = sortStrs (firstSeen ((deriveTable raws).map (fun r => r.importer))) := by
      unfold revenuePerImporter
      rw [List.map_map]
      simp [Function.comp_def]
    rw [hkeys]
    have hM : (deriveTable raws).map (fun r => r.importer)
        = raws.map (fun r => upperStr (pyStrip (pyStr r.importer))) := by
      rw [deriveTable_eq_map, List.map_map]
      rfl
    rw [hM]
    unfold sortStrs
    rw [List.toFinset_eq_of_perm _ _ (List.perm_insertionSort _ _)]
    ext a
    simp [List.mem_toFinset, firstSeen_mem]

/-! ## Claim C2 -/

lemma dropWhile_head_not (p : Nat → Bool) :
    ∀ (l : List Nat) (a : Nat) (t : List Nat), l.dropWhile p = a :: t → p a = false := by
  intro l
  induction l with
  | nil => intro a t h; cases h
  | cons c l ih =>
    intro a t h
    rw [List.dropWhile_cons] at h
    by_cases hc : p c
    · rw [if_pos hc] at h
      exact ih a t h
    · rw [if_neg hc] at h
      cases h
      exact Bool.eq_false_iff.mpr hc

/-- The first character surviving `str.strip()` is never whitespace. -/
lemma pyStrip_head_not : ∀ (s : Str) (a : Nat) (t : Str),
    pyStrip s = a :: t → isWsp a = false := by
  intro s a t h
  unfold pyStrip at h
  have h2 : (s.dropWhile isWsp).reverse.dropWhile isWsp = (a :: t).reverse := by
    rw [← h, List.reverse_reverse]
  have h3 : (s.dropWhile isWsp).reverse
      = (s.dropWhile isWsp).reverse.takeWhile isWsp ++ (a :: t).reverse := by
    rw [← h2]
    exact (List.takeWhile_append_dropWhile _ _).symm
  have h4 : s.dropWhile isWsp
      = (a :: t) ++ ((s.dropWhile isWsp).reverse.takeWhile isWsp).reverse := by
    have h5 := congrArg List.reverse h3
    simpa [List.reverse_append] using h5
  exact dropWhile_head_not isWsp s a _ (by simpa using h4)

/-- `str.strip()` is the identity on a string that neither starts nor ends
with whitespace. -/
lemma pyStrip_noop (s : Str)
    (h1 : ∀ a t, s = a :: t → isWsp a = false)
    (h2 : ∀ a t, s.reverse = a :: t → isWsp a = false) : pyStrip s = s := by
  unfold pyStrip
  have hd : s.dropWhile isWsp = s := by
    cases s with
    | nil => rfl
    | cons a t =>
      rw [List.dropWhile_cons, if_neg]
      simp [h1 a t rfl]
  rw [hd]
  have hr : s.reverse.dropWhile isWsp = s.reverse := by
    cases hs : s.reverse with
    | nil => simp
    | cons a t =>
      rw [List.dropWhile_cons, if_neg]
      simp [h2 a t hs]
  rw [hr, List.reverse_reverse]

/-- ASCII uppercasing does not create or destroy whitespace. -/
lemma isWsp_upChar (n : Nat) : isWsp (upChar n) = isWsp n := by
  unfold upChar isWsp
  split
  · next h =>
    have e1 : ¬(n - 32 = 32 ∨ (9 ≤ n - 32 ∧ n - 32 ≤ 13)) := by omega
    have e2 : ¬(n = 32 ∨ (9 ≤ n ∧ n ≤ 13)) := by omega
    simp only [decide_eq_decide]
    constructor
    · intro hx; exact absurd hx e1
    · intro hx; exact absurd hx e2
  · rfl

/-- The synthesized `"{Importer} {MonthDay}"` string is already stripped
when the cleaned importer is nonempty: it starts with a non-whitespace
character of the importer and ends with a digit of the zero-padded day. -/
lemma pyStrip_fallback_noop (z : Str) (d : PyDate)
    (hne : upperStr (pyStrip z) ≠ []) :
    pyStrip (upperStr (pyStrip z) ++ [32] ++ monthDayStr d)
      = upperStr (pyStrip z) ++ [32] ++ monthDayStr d := by
  apply pyStrip_noop
  · intro a t h
    cases him : pyStrip z with
    | nil => exact absurd (by simp [him, upperStr]) hne
    | cons b t0 =>
      rw [him] at h
      have hb : upChar b = a := by
        rw [upperStr, List.map_cons, List.cons_append, List.cons_append] at h
        exact (List.cons.injEq _ _ _ _).mp h |>.1
      rw [← hb, isWsp_upChar]
      exact pyStrip_head_not z b t0 him
  · intro a t h
    unfold monthDayStr twoDigit at h
    simp only [List.append_assoc, List.reverse_append, List.reverse_cons, List.reverse_nil,
      List.nil_append, List.cons_append] at h
    have ha : 48 + d.day % 10 = a := (List.cons.injEq _ _ _ _).mp h |>.1
    rw [← ha]
    unfold isWsp
    have hne2 : ¬(48 + d.day % 10 = 32 ∨ (9 ≤ 48 + d.day % 10 ∧ 48 + d.day % 10 ≤ 13)) := by
      omega
    simp [hne2]

/-- When the coerced Master Bill Number is non-null, the container name is
its trimmed string. -/
lemma deriveRest_container_present (w : WRow)
    (h : ¬ pyStr w.masterBillNumber = strLit "nan") :
    (deriveRest w).containerName = pyStrip (pyStr w.masterBillNumber) := by
  simp only [deriveRest]
  rw [if_neg h]
  rfl

/-- When the coerced Master Bill Number is null and the date parses, the
container name is the trimmed synthesized fallback. -/
lemma deriveRest_container_fallback (w : WRow) (d : PyDate)
    (h : pyStr w.masterBillNumber = strLit "nan") (hd : parseDateC w.date = some d) :
    (deriveRest w).containerName = pyStrip (w.importer ++ [32] ++ monthDayStr d) := by
  simp only [deriveRest]
  rw [hd, if_pos h]
  rfl

/-- C2 (counterexample): the claim as stated is false on the code.  The
raw row `c2Row` has a non-null (but empty) Importer and a parsable Date
and no Master Bill Number; the final `astype(str).str.strip()` trims the
leading space off the fallback, so the Container Name is `"January05"`,
not the claimed `Importer ++ " " ++ MonthDay` (which is `" January05"`). -/
theorem c2_counterexample :
    c2Row.importer = some [] ∧ parseDateC c2Row.date = some ⟨2024, 1, 5⟩ ∧
    pyStr c2Row.masterBillNumber = strLit "nan" ∧
    (rowPipeline c2Row).containerName
      ≠ (rowPipeline c2Row).importer ++ [32] ++ monthDayStr ⟨2024, 1, 5⟩ := by
  decide

/-- C2 (amended): for every ingested record with a non-null Importer and a
parsable Date, the Container Name (a total string, hence non-null) equals
the trimmed original Master Bill Number when that is present (non-null and
not the literal `"nan"`), and otherwise equals the **trimmed**
concatenation of the cleaned importer name, a space, and the MonthDay
rendering of the date; when the cleaned importer name is nonempty the trim
is the identity and the claim's exact concatenation holds. -/
theorem c2_container_name (r : RawRow) (s : Str) (d : PyDate)
    (_hi : r.importer = some s) (hd : parseDateC r.date = some d) :
    ((¬ pyStr r.masterBillNumber = strLit "nan") →
      (rowPipeline r).containerName = pyStrip (pyStr r.masterBillNumber)) ∧
    (pyStr r.masterBillNumber = strLit "nan" →
      (rowPipeline r).containerName
        = pyStrip ((rowPipeline r).importer ++ [32] ++ monthDayStr d)) ∧
    (pyStr r.masterBillNumber = strLit "nan" → (rowPipeline r).importer ≠ [] →
      (rowPipeline r).containerName
        = (rowPipeline r).importer ++ [32] ++ monthDayStr d) := by
  refine ⟨?_, ?_, ?_⟩
  · intro h
    exact deriveRest_container_present (addNorm (preOf r)) h
  · intro h
    exact deriveRest_container_fallback (addNorm (preOf r)) d h hd
  · intro h hne
    show (deriveRest (addNorm (preOf r))).containerName
      = upperStr (pyStrip (pyStr r.importer)) ++ [32] ++ monthDayStr d
    rw [deriveRest_container_fallback (addNorm (preOf r)) d h hd]
    exact pyStrip_fallback_noop (pyStr r.importer) d hne

/-- C2 (witness): the amended statement evaluated on the concrete row
`c2RowB` (Importer `ACME`, Date 2024-01-05, no bill number). -/
theorem c2_container_name_witness :
    ((¬ pyStr c2RowB.masterBillNumber = strLit "nan") →
      (rowPipeline c2RowB).containerName = pyStrip (pyStr c2RowB.masterBillNumber)) ∧
    (pyStr c2RowB.masterBillNumber = strLit "nan" →
      (rowPipeline c2RowB).containerName
        = pyStrip ((rowPipeline c2RowB).importer ++ [32] ++ monthDayStr ⟨2024, 1, 5⟩)) ∧
    (pyStr c2RowB.masterBillNumber = strLit "nan" → (rowPipeline c2RowB).importer ≠ [] →
      (rowPipeline c2RowB).containerName
        = (rowPipeline c2RowB).importer ++ [32] ++ monthDayStr ⟨2024, 1, 5⟩) :=
  c2_container_name c2RowB (strLit "ACME") ⟨2024, 1, 5⟩ rfl (by decide)

/-! ## Claim C9 -/

/-- When the coerced Master Bill Number is null and the date does not
parse, the null date propagates through `Importer + " " + Date_str`, so
`fillna` leaves the bill number null, and line 86's `astype(str)` renders
the Unique Master Bill Number / Container Name as the literal `"nan"`. -/
lemma deriveRest_null_date_mbn (w : WRow)
    (h1 : pyStr w.masterBillNumber = strLit "nan") (h2 : parseDateC w.date = none) :
    (deriveRest w).masterBillNumber = none ∧
    (deriveRest w).uniqueMasterBillNumber = strLit "nan" ∧
    (deriveRest w).containerName = strLit "nan" := by
  have hs : pyStrip (strLit "nan") = strLit "nan" := by decide
  simp only [deriveRest]
  rw [h2, if_pos h1]
  simp [pyStr, hs]

/-- C9 (counterexample): the claim as stated is false on the code.  At the
concrete row `c9Row` (Importer `ACME`, unparsable Date, null Master Bill
Number) the synthesized Master Bill Number is not a string containing the
importer name: the fallback is itself null (pandas null propagation), so
the Master Bill Number column stays null and the derived Container Name is
the literal string `"nan"`, which does not contain `"ACME"`. -/
theorem c9_counterexample :
    pyStr c9Row.masterBillNumber = strLit "nan" ∧ parseDateC c9Row.date = none ∧
    (rowPipeline c9Row).masterBillNumber = none ∧
    containsSub (rowPipeline c9Row).containerName (strLit "ACME") = false := by
  decide

/-- C9 (amended): for every record whose Master Bill Number is null
(including the literal string `"nan"`) and whose Date is also null, the
fallback `Importer + " " + Date_str` is itself null, so the Master Bill
Number column remains null and the derived Unique Master Bill Number /
Container Name is the literal string `"nan"` (no importer name, no
null-date placeholder). -/
theorem c9_null_date_null_mbn (r : RawRow)
    (h1 : pyStr r.masterBillNumber = strLit "nan") (h2 : parseDateC r.date = none) :
    (rowPipeline r).masterBillNumber = none ∧
    (rowPipeline r).uniqueMasterBillNumber = strLit "nan" ∧
    (rowPipeline r).containerName = strLit "nan" :=
  deriveRest_null_date_mbn (addNorm (preOf r)) h1 h2

/-- C9 (witness): the amended statement evaluated on the concrete row
`c9Row`. -/
theorem c9_null_date_null_mbn_witness :
    (rowPipeline c9Row).masterBillNumber = none ∧
    (rowPipeline c9Row).uniqueMasterBillNumber = strLit "nan" ∧
    (rowPipeline c9Row).containerName = strLit "nan" :=
  c9_null_date_null_mbn c9Row (by decide) (by decide)

/-! ## Claim C3 -/

/-- The `extractOne` scan keeps a choice from the list (or the running
best), never decreases the running best score, and dominates the score of
every scanned choice. -/
lemma extractGo_spec (q : Str) : ∀ (cs : List Str) (best : Str × ℚ),
    (extractGo q best cs = best ∨
      ((extractGo q best cs).1 ∈ cs ∧
        (extractGo q best cs).2 = tokenSortScore q (extractGo q best cs).1)) ∧
    best.2 ≤ (extractGo q best cs).2 ∧
    ∀ c ∈ cs, tokenSortScore q c ≤ (extractGo q best cs).2 := by
  intro cs
  induction cs with
  | nil =>
    intro best
    refine ⟨Or.inl rfl, le_refl _, ?_⟩
    intro c hc
    cases hc
  | cons c cs ih =>
    intro best
    by_cases hlt : best.2 < tokenSortScore q c
    · have he : extractGo q best (c :: cs) = extractGo q (c, tokenSortScore q c) cs := by
        rw [extractGo, if_pos hlt]
      obtain ⟨ih1, ih2, ih3⟩ := ih (c, tokenSortScore q c)
      refine ⟨?_, ?_, ?_⟩
      · rw [he]
        rcases ih1 with h | h
        · right
          rw [h]
          exact ⟨List.mem_cons_self _ _, rfl⟩
        · exact Or.inr ⟨List.mem_cons_of_mem _ h.1, h.2⟩
      · rw [he]
        exact le_trans (le_of_lt hlt) ih2
      · rw [he]
        intro x hx
        rcases List.mem_cons.mp hx with rfl | hx'
        · exact ih2
        · exact ih3 x hx'
    · have he : extractGo q best (c :: cs) = extractGo q best cs := by
        rw [extractGo, if_neg hlt]
      obtain ⟨ih1, ih2, ih3⟩ := ih best
      refine ⟨?_, ?_, ?_⟩
      · rw [he]
        rcases ih1 with h | h
        · exact Or.inl h
        · exact Or.inr ⟨List.mem_cons_of_mem _ h.1, h.2⟩
      · rw [he]
        exact ih2
      · rw [he]
        intro x hx
        rcases List.mem_cons.mp hx with rfl | hx'
        · exact le_trans (le_of_not_lt hlt) ih2
        · exact ih3 x hx'

/-- `process.extractOne` on a non-empty choice list returns a member
attaining the maximal `token_sort_ratio` score. -/
lemma extractOne_spec (q u0 : Str) (us : List Str) :
    ∃ mt sc, extractOne q (u0 :: us) = some (mt, sc) ∧ mt ∈ u0 :: us ∧
      sc = tokenSortScore q mt ∧ ∀ c ∈ u0 :: us, tokenSortScore q c ≤ sc := by
  obtain ⟨h1, h2, h3⟩ := extractGo_spec q us (u0, tokenSortScore q u0)
  refine ⟨(extractGo q (u0, tokenSortScore q u0) us).1,
    (extractGo q (u0, tokenSortScore q u0) us).2, rfl, ?_, ?_, ?_⟩
  · rcases h1 with h | h
    · rw [h]
      exact List.mem_cons_self _ _
    · exact List.mem_cons_of_mem _ h.1
  · rcases h1 with h | h
    · rw [h]
    · exact h.2
  · intro c hc
    rcases List.mem_cons.mp hc with rfl | hc'
    · exact h2
    · exact h3 c hc'

lemma dedupStep_fst_ne_nil (st : List Str × List (Str × Str)) (x : Str) :
    (dedupStep st x).1 ≠ [] := by
  rcases st with ⟨us, m⟩
  unfold dedupStep
  by_cases h : us.isEmpty
  · simp [h]
  · cases hx : extractOne x us with
    | none => simp [h, hx]
    | some p =>
      rcases p with ⟨mt, sc⟩
      by_cases hs : (90 : ℚ) ≤ sc
      · simp only [h, hx, Bool.false_eq_true, if_false, hs, if_true]
        simpa [List.isEmpty_iff] using h
      · simp [h, hx, hs]

lemma foldl_dedup_fst_ne_nil :
    ∀ (l : List Str) (st : List Str × List (Str × Str)),
      st.1 ≠ [] → (l.foldl dedupStep st).1 ≠ [] := by
  intro l
  induction l with
  | nil => intro st h; exact h
  | cons x l ih =>
    intro st h
    rw [List.foldl_cons]
    exact ih _ (dedupStep_fst_ne_nil st x)

lemma buildMapping_fst_ne_nil (pre : List Str) (h : pre ≠ []) :
    (buildMapping pre).1 ≠ [] := by
  cases pre with
  | nil => exact absurd rfl h
  | cons x l =>
    unfold buildMapping
    rw [List.foldl_cons]
    exact foldl_dedup_fst_ne_nil l _ (dedupStep_fst_ne_nil _ x)

/-- C3: the deduplication loop processes the distinct normalized names in
first-seen order (`firstSeen` is duplicate-free, order-preserving, and
covers exactly the names seen); the first name becomes its own canonical
form and maps to itself; and each subsequent name is compared via
`extractOne` against the canonical forms registered so far: it maps to the
best token-sort-ratio match when the best score is at least 90 (0-100
scale), and otherwise registers as a new canonical form mapped to
itself. -/
theorem c3_dedup_greedy_clustering :
    (∀ x : Str, buildMapping [x] = ([x], [(x, x)])) ∧
    (∀ l : List Str, (firstSeen l).Nodup ∧ List.Sublist (firstSeen l) l ∧
      ∀ x : Str, x ∈ firstSeen l ↔ x ∈ l) ∧
    (∀ names : List Str, nameMappingOf names = (buildMapping (firstSeen names)).2) ∧
    (∀ (pre : List Str) (n : Str), pre ≠ [] →
      ∃ us m mt sc, buildMapping pre = (us, m) ∧ us ≠ [] ∧
        extractOne n us = some (mt, sc) ∧ mt ∈ us ∧ sc = tokenSortScore n mt ∧
        (∀ c ∈ us, tokenSortScore n c ≤ sc) ∧
        buildMapping (pre ++ [n]) =
          if 90 ≤ sc then (us, m ++ [(n, mt)]) else (us ++ [n], m ++ [(n, n)])) := by
  refine ⟨?_, ?_, ?_, ?_⟩
  · intro x
    rfl
  · intro l
    exact ⟨firstSeen_nodup l, firstSeen_sublist l, fun x => firstSeen_mem x l⟩
  · intro names
    rfl
  · intro pre n hpre
    obtain ⟨us, m, hbm⟩ : ∃ us m, buildMapping pre = (us, m) := ⟨_, _, rfl⟩
    have hus : us ≠ [] := by
      have h := buildMapping_fst_ne_nil pre hpre
      rw [hbm] at h
      exact h
    obtain ⟨u0, us', rfl⟩ : ∃ u0 us', us = u0 :: us' := by
      cases us with
      | nil => exact absurd rfl hus
      | cons a b => exact ⟨a, b, rfl⟩
    obtain ⟨mt, sc, hext, hmem, hsc, hmax⟩ := extractOne_spec n u0 us'
    refine ⟨u0 :: us', m, mt, sc, hbm, hus, hext, hmem, hsc, hmax, ?_⟩
    have hfold : buildMapping (pre ++ [n]) = dedupStep (buildMapping pre) n := by
      unfold buildMapping
      rw [List.foldl_append, List.foldl_cons, List.foldl_nil]
    have hstep : dedupStep (u0 :: us', m) n =
        if 90 ≤ sc then (u0 :: us', m ++ [(n, mt)])
        else ((u0 :: us') ++ [n], m ++ [(n, n)]) := by
      unfold dedupStep
      simp only [List.isEmpty_cons, Bool.false_eq_true, if_false, hext]
    rw [hfold, hbm, hstep]

/-- C3 (witness): the clustering step evaluated at the concrete state with
canonical forms `["ACME CORP"]` and incoming name `"GLOBEX INC"`. -/
theorem c3_dedup_greedy_clustering_witness :
    ∃ us m mt sc, buildMapping [strLit "ACME CORP"] = (us, m) ∧ us ≠ [] ∧
      extractOne (strLit "GLOBEX INC") us = some (mt, sc) ∧ mt ∈ us ∧
      sc = tokenSortScore (strLit "GLOBEX INC") mt ∧
      (∀ c ∈ us, tokenSortScore (strLit "GLOBEX INC") c ≤ sc) ∧
      buildMapping ([strLit "ACME CORP"] ++ [strLit "GLOBEX INC"]) =
        if 90 ≤ sc then (us, m ++ [(strLit "GLOBEX INC", mt)])
        else (us ++ [strLit "GLOBEX INC"],
          m ++ [(strLit "GLOBEX INC", strLit "GLOBEX INC")]) :=
  c3_dedup_greedy_clustering.2.2.2 [strLit "ACME CORP"] (strLit "GLOBEX INC") (by decide)

/-! ## Claim C4 -/

lemma punct_upChar_keep (c : Nat) (hp : isPunctChar c = true) :
    upChar c = c ∧ keepChar c = false := by
  unfold isPunctChar at hp
  simp only [Bool.not_eq_true', decide_eq_false_iff_not] at hp
  constructor
  · unfold upChar
    rw [if_neg]
    intro h
    exact hp (Or.inr (Or.inl h))
  · unfold keepChar
    simp only [decide_eq_false_iff_not]
    intro h
    rcases h with h | h | h
    · exact hp (Or.inl h)
    · exact hp (Or.inr (Or.inr (Or.inl h)))
    · exact hp (Or.inr (Or.inr (Or.inr h)))

/-- The kept characters of the uppercased string are unchanged by first
removing the punctuation characters. -/
lemma upper_filter_keep : ∀ s : Str,
    (upperStr s).filter keepChar
      = (upperStr (s.filter (fun c => !isPunctChar c))).filter keepChar := by
  intro s
  induction s with
  | nil => rfl
  | cons c s ih =>
    by_cases hp : isPunctChar c = true
    · obtain ⟨h1, h2⟩ := punct_upChar_keep c hp
      have hk : keepChar (upChar c) = false := by rw [h1]; exact h2
      simp only [upperStr, List.map_cons, List.filter_cons, hp, hk, Bool.not_true,
        Bool.false_eq_true, if_false] at ih ⊢
      exact ih
    · have hp' : isPunctChar c = false := by simpa using hp
      simp [upperStr, List.filter_cons, hp'] at ih ⊢
      rw [ih]

lemma dropWhile_wsp_append : ∀ (u s : Str), (∀ c ∈ u, isWsp c = true) →
    (u ++ s).dropWhile isWsp = s.dropWhile isWsp := by
  intro u
  induction u with
  | nil => intro s _; rfl
  | cons c u ih =>
    intro s hu
    rw [List.cons_append, List.dropWhile_cons, if_pos (hu c (List.mem_cons_self c u))]
    exact ih s (fun x hx => hu x (List.mem_cons_of_mem c hx))

lemma dropWhile_wsp_nil (u : Str) (hu : ∀ c ∈ u, isWsp c = true) :
    u.dropWhile isWsp = [] := by
  have h := dropWhile_wsp_append u [] hu
  simpa using h

lemma dropWhile_append_ne_nil (p : Nat → Bool) : ∀ (s v : List Nat), s.dropWhile p ≠ [] →
    (s ++ v).dropWhile p = s.dropWhile p ++ v := by
  intro s
  induction s with
  | nil => intro v h; exact absurd rfl h
  | cons c s ih =>
    intro v h
    by_cases hc : p c = true
    · simp only [List.cons_append, List.dropWhile_cons, hc, if_true] at h ⊢
      exact ih v h
    · have hc' : p c = false := by simpa using hc
      simp only [List.cons_append, List.dropWhile_cons, hc', Bool.false_eq_true, if_false]

lemma dropWhile_eq_nil_all (p : Nat → Bool) : ∀ s : List Nat, s.dropWhile p = [] →
    ∀ c ∈ s, p c = true := by
  intro s
  induction s with
  | nil => intro _ c hc; cases hc
  | cons a s ih =>
    intro h c hc
    by_cases ha : p a = true
    · rw [List.dropWhile_cons, if_pos ha] at h
      rcases List.mem_cons.mp hc with rfl | hc'
      · exact ha
      · exact ih h c hc'
    · have ha' : p a = false := by simpa using ha
      rw [List.dropWhile_cons, ha'] at h
      simp at h

/-- `str.strip()` ignores an all-whitespace run glued to either end. -/
lemma pyStrip_sandwich (u s v : Str) (hu : ∀ c ∈ u, isWsp c = true)
    (hv : ∀ c ∈ v, isWsp c = true) : pyStrip (u ++ (s ++ v)) = pyStrip s := by
  unfold pyStrip
  rw [dropWhile_wsp_append u (s ++ v) hu]
  by_cases hnil : s.dropWhile isWsp = []
  · have hsv : (s ++ v).dropWhile isWsp = [] := by
      rw [dropWhile_wsp_append s v (dropWhile_eq_nil_all isWsp s hnil)]
      exact dropWhile_wsp_nil v hv
    rw [hsv, hnil]
  · rw [dropWhile_append_ne_nil isWsp s v hnil, List.reverse_append]
    rw [dropWhile_wsp_append v.reverse _ (fun c hc => hv c (List.mem_reverse.mp hc))]

/-- Whatever survives the keep-filter of an uppercased all-whitespace run
is still whitespace (only spaces survive). -/
lemma filtered_upper_wsp (u : Str) (hu : ∀ c ∈ u, isWsp c = true) :
    ∀ x ∈ (upperStr u).filter keepChar, isWsp x = true := by
  intro x hx
  rcases List.mem_filter.mp hx with ⟨hx1, _⟩
  rcases List.mem_map.mp hx1 with ⟨c, hc, rfl⟩
  rw [isWsp_upChar]
  exact hu c hc

lemma normalizeName_sandwich (u s v : Str) (hu : ∀ c ∈ u, isWsp c = true)
    (hv : ∀ c ∈ v, isWsp c = true) : normalizeName (u ++ (s ++ v)) = normalizeName s := by
  unfold normalizeName upperStr
  rw [List.map_append, List.map_append, List.filter_append, List.filter_append]
  exact pyStrip_sandwich _ _ _ (filtered_upper_wsp u hu) (filtered_upper_wsp v hv)

/-- Normalization is blind to leading/trailing whitespace. -/
lemma normalizeName_strip (x : Str) : normalizeName x = normalizeName (pyStrip x) := by
  have hdecomp : x = x.takeWhile isWsp
      ++ (pyStrip x ++ ((x.dropWhile isWsp).reverse.takeWhile isWsp).reverse) := by
    conv_lhs => rw [← List.takeWhile_append_dropWhile (p := isWsp) (l := x)]
    congr 1
    have h6 := List.takeWhile_append_dropWhile (p := isWsp) (l := (x.dropWhile isWsp).reverse)
    have h7 := congrArg List.reverse h6
    rw [List.reverse_append, List.reverse_reverse] at h7
    exact h7.symm
  conv_lhs => rw [hdecomp]
  exact normalizeName_sandwich _ _ _
    (fun c hc => List.mem_takeWhile_imp hc)
    (fun c hc => List.mem_takeWhile_imp (List.mem_reverse.mp hc))

lemma normalizeName_caseEquiv (s t : Str) (h : caseEquiv s t) :
    normalizeName s = normalizeName t := by
  unfold caseEquiv at h
  unfold normalizeName
  rw [h]

lemma normalizeName_punctEquiv (s t : Str) (h : punctEquiv s t) :
    normalizeName s = normalizeName t := by
  unfold punctEquiv at h
  unfold normalizeName
  rw [upper_filter_keep s, upper_filter_keep t, h]

lemma normalizeName_wsEquiv (s t : Str) (h : wsEquiv s t) :
    normalizeName s = normalizeName t := by
  unfold wsEquiv at h
  rw [normalizeName_strip s, normalizeName_strip t, h]

/-- C4: two importer strings that differ only by letter case, punctuation
(characters other than letters, digits and spaces), or leading/trailing
whitespace — formalized as any chain of such elementary differences —
produce the identical normalized string under the normalization step
(uppercase, strip every character outside `[A-Z0-9 ]`, trim), before any
fuzzy matching is applied. -/
theorem c4_normalization_canonical (s t : Str)
    (h : Relation.ReflTransGen trivDiff s t) : normalizeName s = normalizeName t := by
  induction h with
  | refl => rfl
  | tail _ hbc ih =>
    rcases hbc with hc | hc | hc
    · exact ih.trans (normalizeName_caseEquiv _ _ hc)
    · exact ih.trans (normalizeName_punctEquiv _ _ hc)
    · exact ih.trans (normalizeName_wsEquiv _ _ hc)

/-- C4 (witness): `" Acme Corp."` and `"ACME CORP"` differ only by
whitespace, case and punctuation, and normalize identically. -/
theorem c4_normalization_canonical_witness :
    Relation.ReflTransGen trivDiff (strLit " Acme Corp.") (strLit "ACME CORP") ∧
    normalizeName (strLit " Acme Corp.") = normalizeName (strLit "ACME CORP") := by
  have h1 : trivDiff (strLit " Acme Corp.") (strLit "Acme Corp.") :=
    Or.inr (Or.inr (by unfold wsEquiv; decide))
  have h2 : trivDiff (strLit "Acme Corp.") (strLit "ACME CORP.") :=
    Or.inl (by unfold caseEquiv; decide)
  have h3 : trivDiff (strLit "ACME CORP.") (strLit "ACME CORP") :=
    Or.inr (Or.inl (by unfold punctEquiv; decide))
  have hc : Relation.ReflTransGen trivDiff (strLit " Acme Corp.") (strLit "ACME CORP") :=
    Relation.ReflTransGen.head h1
      (Relation.ReflTransGen.head h2 (Relation.ReflTransGen.single h3))
  exact ⟨hc, c4_normalization_canonical _ _ hc⟩

/-! ## Claim C5 -/

/-- `next(...)` semantics of the sort-column scan: the chosen index holds
a qualifying column and every earlier column does not qualify. -/
lemma firstQualifying_spec : ∀ (cols : List WCol) (i : Nat), firstQualifying cols = some i →
    (∃ cl, cols.get? i = some cl ∧ keywordCol cl = true) ∧
    ∀ j, j < i → ∀ cl, cols.get? j = some cl → keywordCol cl = false := by
  intro cols
  induction cols with
  | nil => intro i h; cases h
  | cons cl cols ih =>
    intro i h
    by_cases hk : keywordCol cl = true
    · rw [firstQualifying, if_pos hk] at h
      injection h with h
      subst h
      refine ⟨⟨cl, rfl, hk⟩, ?_⟩
      intro j hj
      exact absurd hj (Nat.not_lt_zero j)
    · rw [firstQualifying, if_neg hk] at h
      cases hmap : firstQualifying cols with
      | none => rw [hmap] at h; cases h
      | some i' =>
        rw [hmap] at h
        simp only [Option.map_some'] at h
        injection h with h
        subst h
        obtain ⟨⟨cl', hg, hkc⟩, hprior⟩ := ih i' hmap
        refine ⟨⟨cl', by simpa using hg, hkc⟩, ?_⟩
        intro j hj cl2 h2
        cases j with
        | zero =>
          have hcl : cl = cl2 := by simpa using h2
          subst hcl
          simpa using hk
        | succ j' =>
          have hj' : j' < i' := by omega
          exact hprior j' hj' cl2 (by simpa using h2)

/-- C5: for every sheet handed to `write_sheet`, if some column's name
contains one of the substrings cost/revenue/weight/value
(case-insensitively) and that column is numeric-typed, then the rows are
written sorted descending (nulls last) by the first such column in column
order, as a permutation of the original rows; if no column qualifies, the
rows keep their original order. -/
theorem c5_write_sheet_sort (t : WTable) :
    (∀ i, sortColIdx t = some i →
      (∃ cl, t.cols.get? i = some cl ∧ keywordCol cl = true) ∧
      (∀ j, j < i → ∀ cl, t.cols.get? j = some cl → keywordCol cl = false) ∧
      List.Pairwise (descLe i) (writtenRows t) ∧ (writtenRows t).Perm t.rows) ∧
    (sortColIdx t = none → writtenRows t = t.rows) := by
  constructor
  · intro i hi
    obtain ⟨h1, h2⟩ := firstQualifying_spec t.cols i hi
    have hw : writtenRows t = List.insertionSort (descLe i) t.rows := by
      unfold writtenRows
      rw [hi]
    refine ⟨h1, h2, ?_, ?_⟩
    · rw [hw]
      exact List.sorted_insertionSort (descLe i) t.rows
    · rw [hw]
      exact List.perm_insertionSort (descLe i) t.rows
  · intro h
    unfold writtenRows
    rw [h]

/-- C5 (witness): on the concrete sheet `c5Table` the scan picks column 1
(`Total Cost`, numeric), column 0 does not qualify, and the written rows
are a descending-sorted permutation of the original rows. -/
theorem c5_write_sheet_sort_witness :
    (∃ cl, c5Table.cols.get? 1 = some cl ∧ keywordCol cl = true) ∧
    (∀ j, j < 1 → ∀ cl, c5Table.cols.get? j = some cl → keywordCol cl = false) ∧
    List.Pairwise (descLe 1) (writtenRows c5Table) ∧
    (writtenRows c5Table).Perm c5Table.rows :=
  (c5_write_sheet_sort c5Table).1 1 (by decide)

end ContainerTool
